import Mathlib

namespace JWTGen

/-- Truncate to 32 bits (values are Nats; overflow is explicit `% 2^32`). -/
def m32 (n : Nat) : Nat := n % 4294967296

/-- Bitwise complement on 32-bit values (argument must be `< 2^32`). -/
def lnot32 (a : Nat) : Nat := 4294967295 - a

/-- Rotate a 32-bit value left by `r` bits. -/
def rotl32 (x r : Nat) : Nat := (x % 2 ^ (32 - r)) * 2 ^ r + x / 2 ^ (32 - r)

/-- Rotate a 32-bit value right by `r` bits. -/
def rotr32 (x r : Nat) : Nat := x / 2 ^ r + (x % 2 ^ r) * 2 ^ (32 - r)

/-- The 64 MD5 round constants. -/
def md5K : List Nat :=
  [3614090360, 3905402710, 606105819, 3250441966, 4118548399, 1200080426, 2821735955, 4249261313,
   1770035416, 2336552879, 4294925233, 2304563134, 1804603682, 4254626195, 2792965006, 1236535329,
   4129170786, 3225465664, 643717713, 3921069994, 3593408605, 38016083, 3634488961, 3889429448,
   568446438, 3275163606, 4107603335, 1163531501, 2850285829, 4243563512, 1735328473, 2368359562,
   4294588738, 2272392833, 1839030562, 4259657740, 2763975236, 1272893353, 4139469664, 3200236656,
   681279174, 3936430074, 3572445317, 76029189, 3654602809, 3873151461, 530742520, 3299628645,
   4096336452, 1126891415, 2878612391, 4237533241, 1700485571, 2399980690, 4293915773, 2240044497,
   1873313359, 4264355552, 2734768916, 1309151649, 4149444226, 3174756917, 718787259, 3951481745]

/-- The 64 MD5 per-round left-rotation amounts. -/
def md5S : List Nat :=
  [7, 12, 17, 22, 7, 12, 17, 22, 7, 12, 17, 22, 7, 12, 17, 22,
   5, 9, 14, 20, 5, 9, 14, 20, 5, 9, 14, 20, 5, 9, 14, 20,
   4, 11, 16, 23, 4, 11, 16, 23, 4, 11, 16, 23, 4, 11, 16, 23,
   6, 10, 15, 21, 6, 10, 15, 21, 6, 10, 15, 21, 6, 10, 15, 21]

/-- MD5 nonlinear round function (selected by round index). -/
def md5F (i b c d : Nat) : Nat :=
  if i < 16 then Nat.lor (Nat.land b c) (Nat.land (lnot32 b) d)
  else if i < 32 then Nat.lor (Nat.land d b) (Nat.land (lnot32 d) c)
  else if i < 48 then Nat.xor b (Nat.xor c d)
  else Nat.xor c (Nat.lor b (lnot32 d))

/-- MD5 message-word index for round `i`. -/
def md5G (i : Nat) : Nat :=
  if i < 16 then i
  else if i < 32 then (5 * i + 1) % 16
  else if i < 48 then (3 * i + 5) % 16
  else (7 * i) % 16

/-- One MD5 round on the (a, b, c, d) state. -/
def md5Step (M : List Nat) (st : Nat × Nat × Nat × Nat) (i : Nat) : Nat × Nat × Nat × Nat :=
  match st with
  | (a, b, c, d) =>
    let f := m32 (md5F i b c d + a + md5K.getD i 0 + M.getD (md5G i) 0)
    (d, m32 (b + rotl32 f (md5S.getD i 0)), b, c)

/-- Process one 64-byte block (given as sixteen 32-bit words). -/
def md5Block (st : Nat × Nat × Nat × Nat) (M : List Nat) : Nat × Nat × Nat × Nat :=
  match (List.range 64).foldl (md5Step M) st, st with
  | (a, b, c, d), (a0, b0, c0, d0) => (m32 (a0 + a), m32 (b0 + b), m32 (c0 + c), m32 (d0 + d))

/-- A 32-bit word as four little-endian bytes. -/
def leBytes4 (x : Nat) : List Nat := [x % 256, x / 256 % 256, x / 65536 % 256, x / 16777216 % 256]

/-- A 64-bit word as eight little-endian bytes. -/
def leBytes8 (x : Nat) : List Nat := leBytes4 x ++ leBytes4 (x / 4294967296)

/-- A 32-bit word as four big-endian bytes. -/
def beBytes4 (x : Nat) : List Nat := [x / 16777216 % 256, x / 65536 % 256, x / 256 % 256, x % 256]

/-- A 64-bit word as eight big-endian bytes. -/
def beBytes8 (x : Nat) : List Nat := beBytes4 (x / 4294967296) ++ beBytes4 x

/-- Group bytes into 32-bit little-endian words. -/
def words4LE : List Nat → List Nat
  | b0 :: b1 :: b2 :: b3 :: rest => (b0 + 256 * b1 + 65536 * b2 + 16777216 * b3) :: words4LE rest
  | _ => []

/-- Group bytes into 32-bit big-endian words. -/
def words4BE : List Nat → List Nat
  | b0 :: b1 :: b2 :: b3 :: rest => (16777216 * b0 + 65536 * b1 + 256 * b2 + b3) :: words4BE rest
  | _ => []

/-- Split a byte list into 64-byte blocks (fuel-driven structural recursion). -/
def blocks64 : Nat → List Nat → List (List Nat)
  | 0, _ => []
  | _, [] => []
  | fuel + 1, l => l.take 64 :: blocks64 fuel (l.drop 64)

/-- Merkle-Damgard padding with a little-endian length field (MD5). -/
def padMD5 (msg : List Nat) : List Nat :=
  msg ++ 128 :: (List.replicate ((119 - msg.length % 64) % 64) 0 ++ leBytes8 (msg.length * 8))

/-- Merkle-Damgard padding with a big-endian length field (SHA-256). -/
def padSHA (msg : List Nat) : List Nat :=
  msg ++ 128 :: (List.replicate ((119 - msg.length % 64) % 64) 0 ++ beBytes8 (msg.length * 8))

/-- MD5 digest of a byte string, as 16 bytes. -/
def md5Bytes (msg : List Nat) : List Nat :=
  let padded := padMD5 msg
  match (blocks64 padded.length padded).foldl (fun st blk => md5Block st (words4LE blk))
      (1732584193, 4023233417, 2562383102, 271733878) with
  | (a, b, c, d) => leBytes4 a ++ leBytes4 b ++ leBytes4 c ++ leBytes4 d

/-- Lowercase hexadecimal digit for a value below 16. -/
def hexChar (n : Nat) : Char := if n < 10 then Char.ofNat (48 + n) else Char.ofNat (87 + n)

/-- Two lowercase hex digits of a byte. -/
def byteHex (b : Nat) : List Char := [hexChar (b / 16), hexChar (b % 16)]

/-- Lowercase hex string of a byte list. -/
def bytesToHex (bs : List Nat) : String := String.mk ((bs.map byteHex).flatten)

/-- `hashlib.md5(...).hexdigest()`. -/
def md5hex (msg : List Nat) : String := bytesToHex (md5Bytes msg)

/-- The 64 SHA-256 round constants. -/
def sha256K : List Nat :=
  [1116352408, 1899447441, 3049323471, 3921009573, 961987163, 1508970993, 2453635748, 2870763221,
   3624381080, 310598401, 607225278, 1426881987, 1925078388, 2162078206, 2614888103, 3248222580,
   3835390401, 4022224774, 264347078, 604807628, 770255983, 1249150122, 1555081692, 1996064986,
   2554220882, 2821834349, 2952996808, 3210313671, 3336571891, 3584528711, 113926993, 338241895,
   666307205, 773529912, 1294757372, 1396182291, 1695183700, 1986661051, 2177026350, 2456956037,
   2730485921, 2820302411, 3259730800, 3345764771, 3516065817, 3600352804, 4094571909, 275423344,
   430227734, 506948616, 659060556, 883997877, 958139571, 1322822218, 1537002063, 1747873779,
   1955562222, 2024104815, 2227730452, 2361852424, 2428436474, 2756734187, 3204031479, 3329325298]

/-- SHA-256 small sigma 0 (message schedule). -/
def shaS0 (x : Nat) : Nat := Nat.xor (rotr32 x 7) (Nat.xor (rotr32 x 18) (x / 8))

/-- SHA-256 small sigma 1 (message schedule). -/
def shaS1 (x : Nat) : Nat := Nat.xor (rotr32 x 17) (Nat.xor (rotr32 x 19) (x / 1024))

/-- Extend 16 message words to the 64-word SHA-256 schedule. -/
def shaExtend (w : List Nat) : List Nat :=
  (List.range 48).foldl (fun w i =>
    w ++ [m32 (w.getD i 0 + shaS0 (w.getD (i + 1) 0) + w.getD (i + 9) 0 + shaS1 (w.getD (i + 14) 0))]) w

/-- One SHA-256 compression round on the 8-word state. -/
def shaStep (w : List Nat) (st : Nat × Nat × Nat × Nat × Nat × Nat × Nat × Nat) (i : Nat) :
    Nat × Nat × Nat × Nat × Nat × Nat × Nat × Nat :=
  match st with
  | (a, b, c, d, e, f, g, h) =>
    let s1 := Nat.xor (rotr32 e 6) (Nat.xor (rotr32 e 11) (rotr32 e 25))
    let ch := Nat.xor (Nat.land e f) (Nat.land (lnot32 e) g)
    let t1 := m32 (h + s1 + ch + sha256K.getD i 0 + w.getD i 0)
    let s0 := Nat.xor (rotr32 a 2) (Nat.xor (rotr32 a 13) (rotr32 a 22))
    let mj := Nat.xor (Nat.land a b) (Nat.xor (Nat.land a c) (Nat.land b c))
    let t2 := m32 (s0 + mj)
    (m32 (t1 + t2), a, b, c, m32 (d + t1), e, f, g)

/-- Process one 64-byte SHA-256 block. -/
def shaBlock (st : Nat × Nat × Nat × Nat × Nat × Nat × Nat × Nat) (blk : List Nat) :
    Nat × Nat × Nat × Nat × Nat × Nat × Nat × Nat :=
  let w := shaExtend (words4BE blk)
  match (List.range 64).foldl (shaStep w) st, st with
  | (a, b, c, d, e, f, g, h), (a0, b0, c0, d0, e0, f0, g0, h0) =>
    (m32 (a0 + a), m32 (b0 + b), m32 (c0 + c), m32 (d0 + d),
     m32 (e0 + e), m32 (f0 + f), m32 (g0 + g), m32 (h0 + h))

/-- SHA-256 digest of a byte string, as 32 bytes. -/
def sha256Bytes (msg : List Nat) : List Nat :=
  let padded := padSHA msg
  match (blocks64 padded.length padded).foldl shaBlock
      (1779033703, 3144134277, 1013904242, 2773480762,
       1359893119, 2600822924, 528734635, 1541459225) with
  | (a, b, c, d, e, f, g, h) =>
    beBytes4 a ++ beBytes4 b ++ beBytes4 c ++ beBytes4 d ++
    beBytes4 e ++ beBytes4 f ++ beBytes4 g ++ beBytes4 h

/-- `hashlib.sha256(...).hexdigest()`. -/
def sha256hex (msg : List Nat) : String := bytesToHex (sha256Bytes msg)

/-- UTF-8 encoding of one character. -/
def utf8Bytes (c : Char) : List Nat :=
  let n := c.toNat
  if n < 128 then [n]
  else if n < 2048 then [192 + n / 64, 128 + n % 64]
  else if n < 65536 then [224 + n / 4096, 128 + n / 64 % 64, 128 + n % 64]
  else [240 + n / 262144, 128 + n / 4096 % 64, 128 + n / 64 % 64, 128 + n % 64]

/-- `str.encode()`: UTF-8 bytes of a string. -/
def strBytes (s : String) : List Nat := (s.data.map utf8Bytes).flatten

/-!
Data model: JSON-like values as they flow through `src/main.py`.

Python dicts preserve insertion order and have unique keys; they are embedded
as insertion-ordered association lists.  `JVal.time` stands for the
`datetime.now(timezone.utc)` objects injected as `iat`/`exp` claims (measured
in whole seconds); such values are only ever created after cache-key
derivation, mirroring the source, so they never reach the JSON serializer in
any modelled execution.
-/

mutual
inductive JVal where
  | str (s : String)
  | num (n : Int)
  | bool (b : Bool)
  | null
  | time (t : Nat)
  | arr (l : JArr)
  | obj (l : JObj)
deriving DecidableEq
inductive JArr where
  | nil
  | cons (v : JVal) (t : JArr)
deriving DecidableEq
inductive JObj where
  | nil
  | cons (k : String) (v : JVal) (t : JObj)
deriving DecidableEq
end

/-- A Python dict with string keys, in insertion order. -/
abbrev Payload := List (String × JVal)

/-- Python `d[k]` / `d.get(k)`: value of the first (unique) matching key. -/
def dictGet {α : Type} (k : String) : List (String × α) → Option α
  | [] => none
  | (k2, v) :: t => if k = k2 then some v else dictGet k t

/-- Python `k in d`. -/
def hasKey {α : Type} (k : String) (d : List (String × α)) : Bool :=
  (dictGet k d).isSome

/-- Python `d[k] = v`: update in place if present, else append. -/
def dictInsert {α : Type} (k : String) (v : α) : List (String × α) → List (String × α)
  | [] => [(k, v)]
  | (k2, v2) :: t => if k = k2 then (k, v) :: t else (k2, v2) :: dictInsert k v t

/-- View an association list as a `JObj` spine. -/
def objOfList : List (String × JVal) → JObj
  | [] => .nil
  | (k, v) :: t => .cons k v (objOfList t)

/-- Lexicographic code-point comparison of character lists (the order Python
uses on `str`). -/
def charListLE : List Char → List Char → Bool
  | [], _ => true
  | _ :: _, [] => false
  | c1 :: t1, c2 :: t2 =>
    if c1.toNat < c2.toNat then true
    else if c2.toNat < c1.toNat then false
    else charListLE t1 t2

/-- String order used by `sort_keys=True`. -/
def strLE (s1 s2 : String) : Bool := charListLE s1.data s2.data

/-- Insert a key/value pair into a key-sorted `JObj`. -/
def insO (k : String) (v : JVal) : JObj → JObj
  | .nil => .cons k v .nil
  | .cons k2 v2 t =>
    if strLE k k2 then .cons k v (.cons k2 v2 t) else .cons k2 v2 (insO k v t)

/-- Insertion sort of a `JObj` by key (Python `sort_keys=True` at one level). -/
def sortPairsO : JObj → JObj
  | .nil => .nil
  | .cons k v t => insO k v (sortPairsO t)

mutual
/-- Canonicalize a value: sort every object's keys, recursively
(the effect of `json.dumps(..., sort_keys=True)` on emission order). -/
def sortV : JVal → JVal
  | .arr l => .arr (sortA l)
  | .obj l => .obj (sortPairsO (sortVals l))
  | v => v
def sortA : JArr → JArr
  | .nil => .nil
  | .cons v t => .cons (sortV v) (sortA t)
def sortVals : JObj → JObj
  | .nil => .nil
  | .cons k v t => .cons k (sortV v) (sortVals t)
end

/-- Four lowercase hex digits (for `\uXXXX` escapes). -/
def hex4 (n : Nat) : String :=
  String.mk [hexChar (n / 4096 % 16), hexChar (n / 256 % 16), hexChar (n / 16 % 16), hexChar (n % 16)]

/-- Escape one character the way Python's `json.dumps` does
(`ensure_ascii=True`: everything outside printable ASCII becomes `\uXXXX`,
with surrogate pairs above the BMP). -/
def escapeChar (c : Char) : String :=
  let n := c.toNat
  if n = 34 then "\\\""
  else if n = 92 then "\\\\"
  else if n = 8 then "\\b"
  else if n = 9 then "\\t"
  else if n = 10 then "\\n"
  else if n = 12 then "\\f"
  else if n = 13 then "\\r"
  else if n < 32 then "\\u" ++ hex4 n
  else if n < 127 then String.mk [c]
  else if n < 65536 then "\\u" ++ hex4 n
  else "\\u" ++ hex4 (55296 + (n - 65536) / 1024) ++ "\\u" ++ hex4 (56320 + (n - 65536) % 1024)

/-- Python `json.dumps` of a string. -/
def dumpStr (s : String) : String := "\"" ++ String.join (s.data.map escapeChar) ++ "\""

mutual
/-- Python `json.dumps` with default separators, emitting pairs in stored
order (so `dumpV (sortV v)` is `json.dumps(v, sort_keys=True)`).  `time`
values never reach this function in modelled executions (the source derives
cache keys only from payloads that precede timestamp injection). -/
def dumpV : JVal → String
  | .str s => dumpStr s
  | .num n => toString n
  | .bool b => if b then "true" else "false"
  | .null => "null"
  | .time t => "datetime<" ++ toString t ++ ">"
  | .arr l => "[" ++ dumpA l ++ "]"
  | .obj l => "\x7b" ++ dumpO l ++ "\x7d"
def dumpA : JArr → String
  | .nil => ""
  | .cons v .nil => dumpV v
  | .cons v t => dumpV v ++ ", " ++ dumpA t
def dumpO : JObj → String
  | .nil => ""
  | .cons k v .nil => dumpStr k ++ ": " ++ dumpV v
  | .cons k v t => dumpStr k ++ ": " ++ dumpV v ++ ", " ++ dumpO t
end

/-- `generate_cache_key` (src/main.py:45-55): strip `iat`/`exp`, combine a
16-hex-char SHA-256 prefix of the secret with the payload and algorithm,
serialize with sorted keys, and take the MD5 hex digest. -/
def generate_cache_key (secret_key : String) (payload : Payload) (algorithm : String) : String :=
  let cache_payload := payload.filter (fun kv => !(kv.1 == "iat" || kv.1 == "exp"))
  let cache_data : JVal :=
    .obj (.cons "key_hash" (.str (String.mk ((sha256hex (strBytes secret_key)).data.take 16)))
      (.cons "payload" (.obj (objOfList cache_payload))
        (.cons "algorithm" (.str algorithm) .nil)))
  let cache_string := dumpV (sortV cache_data)
  md5hex (strBytes cache_string)

/-- `should_cache_request` (src/main.py:57-60). -/
def should_cache_request (payload : Payload) (add_exp : Bool) : Bool :=
  !add_exp && !(hasKey "iat" payload) && !(hasKey "exp" payload)

/-!
Cache backends.  `redis = some r` models a process where `redis_client` is
set; `r.ok = false` models per-operation connectivity failures (every Redis
call raises and the `except: pass` handlers fall through to the
in-memory code).  `redis = none` is the in-process backend.
-/

structure RedisState where
  store : List (String × String)
  ok : Bool
deriving DecidableEq

structure CacheState where
  mem : List (String × String)
  redis : Option RedisState
deriving DecidableEq

/-- `get_from_cache` (src/main.py:62-69): try Redis under the `jwt:` prefix;
on a Redis exception fall through to the in-memory dict. -/
def get_from_cache (cache_key : String) (st : CacheState) : Option String :=
  match st.redis with
  | some r => if r.ok then dictGet ("jwt:" ++ cache_key) r.store else dictGet cache_key st.mem
  | none => dictGet cache_key st.mem

/-- In-memory arm of `set_cache` (src/main.py:79-85): insert, then if the
size exceeds 1000 pop the 100 oldest entries in insertion order. -/
def set_cache_mem (cache_key token : String) (mem : List (String × String)) :
    List (String × String) :=
  let mem := dictInsert cache_key token mem
  if 1000 < mem.length then mem.drop 100 else mem

/-- `set_cache` (src/main.py:71-85): `setex` into Redis under the `jwt:`
prefix and return; on a Redis exception fall through to the in-memory insert.
The in-memory arm ignores `ttl` (no per-entry expiry is tracked). -/
def set_cache (cache_key token : String) (ttl : Nat) (st : CacheState) : CacheState :=
  match st.redis with
  | some r =>
    if r.ok then
      { st with redis := some { r with store := dictInsert ("jwt:" ++ cache_key) token r.store } }
    else { st with mem := set_cache_mem cache_key token st.mem }
  | none => { st with mem := set_cache_mem cache_key token st.mem }

structure JWTResponse where
  token : String
  cached : Bool := false
deriving DecidableEq

/-- An HTTPException as raised by the routes. -/
structure HttpError where
  status_code : Nat
  detail : String
deriving DecidableEq

/-- The `options` mapping: both fields optional, mirroring `.get` defaults. -/
structure Options where
  algorithm : Option String := none
  add_exp : Option Bool := none
deriving DecidableEq

/-- Collaborator calls made while handling one request, in order. -/
inductive Event where
  | cacheRead (key : String)
  | cacheWrite (key : String)
  | signCall (payload : Payload) (algorithm : String)
deriving DecidableEq

/-- The external signing primitive `jwt.encode` (a collaborator): it may
raise, modelled as `Except`. -/
abbrev Signer := Payload → String → String → Except String String

/-- Python truthiness of `Optional[str]` (`if cached_token:`). -/
def truthyOpt : Option String → Bool
  | none => false
  | some s => !(s == "")

/-- Timestamp injection (src/main.py:146-151): add `exp = now + 1h` when
requested and absent, then add `iat = now` when absent. -/
def injectStamps (now : Nat) (add_exp : Bool) (payload : Payload) : Payload :=
  let payload :=
    if add_exp && !(hasKey "exp" payload) then
      dictInsert "exp" (JVal.time (now + 3600)) payload
    else payload
  if !(hasKey "iat" payload) then dictInsert "iat" (JVal.time now) payload else payload

/-- `_generate_jwt_logic` (src/main.py:127-167).  `now` is the wall clock at
this request; the third component records the collaborator calls made. -/
def _generate_jwt_logic (signer : Signer) (now : Nat) (secret_key : String)
    (jwt_payload : Payload) (options : Options) (st : CacheState) :
    Except HttpError JWTResponse × CacheState × List Event :=
  let algorithm := options.algorithm.getD "HS256"
  let add_exp := options.add_exp.getD false
  let payload := jwt_payload
  let can_cache := should_cache_request payload add_exp
  let readEvs : List Event :=
    if can_cache then [.cacheRead (generate_cache_key secret_key payload algorithm)] else []
  let hit : Option String :=
    if can_cache then
      let t := get_from_cache (generate_cache_key secret_key payload algorithm) st
      if truthyOpt t then t else none
    else none
  match hit with
  | some cached_token => (.ok { token := cached_token, cached := true }, st, readEvs)
  | none =>
    let payload := injectStamps now add_exp payload
    match signer payload secret_key algorithm with
    | .error e =>
      (.error { status_code := 500, detail := "Internal server error: " ++ e }, st,
        readEvs ++ [.signCall payload algorithm])
    | .ok token =>
      if can_cache then
        let cache_key := generate_cache_key secret_key jwt_payload algorithm
        (.ok { token := token, cached := false }, set_cache cache_key token 3600 st,
          readEvs ++ [.signCall payload algorithm, .cacheWrite cache_key])
      else
        (.ok { token := token, cached := false }, st, readEvs ++ [.signCall payload algorithm])

/-- A parsed POST body (`JWTRequest` pydantic model, src/main.py:88-91). -/
structure JWTRequest where
  key : String
  body : Payload := []
  options : Option Options := some {}

/-- `generate_jwt_post` (src/main.py:97-101): `request.options or {}`. -/
def generate_jwt_post (signer : Signer) (now : Nat) (request : JWTRequest) (st : CacheState) :
    Except HttpError JWTResponse × CacheState × List Event :=
  let options := request.options.getD {}
  _generate_jwt_logic signer now request.key request.body options st

/-- `generate_jwt_get` (src/main.py:103-125).  `parseJson` is the collaborator
`json.loads` (`none` = `JSONDecodeError`).  A falsy (empty) `body` short-
circuits to `{}` without parsing; a parse failure raises HTTP 400 before any
cache or signing work. -/
def generate_jwt_get (parseJson : String → Option Payload) (signer : Signer) (now : Nat)
    (key : String) (body : String) (algorithm : String) (add_exp : Bool) (st : CacheState) :
    Except HttpError JWTResponse × CacheState × List Event :=
  if body == "" then
    _generate_jwt_logic signer now key []
      { algorithm := some algorithm, add_exp := some add_exp } st
  else
    match parseJson body with
    | some jwt_payload =>
      _generate_jwt_logic signer now key jwt_payload
        { algorithm := some algorithm, add_exp := some add_exp } st
    | none =>
      (.error { status_code := 400, detail := "Invalid JSON in 'body' parameter" }, st, [])

/-- The sign events of a trace (used to count Token Signer invocations). -/
def signEvents (evs : List Event) : List Event :=
  evs.filter fun e => match e with | .signCall _ _ => true | _ => false

/-- The cache-write events of a trace. -/
def writeEvents (evs : List Event) : List Event :=
  evs.filter fun e => match e with | .cacheWrite _ => true | _ => false

deriving instance DecidableEq for Except

/-- Fold a sequence of `set_cache` calls (used to model a burst of inserts). -/
def insertAllState (ps : List (String × String)) (st : CacheState) : CacheState :=
  ps.foldl (fun s kv => set_cache kv.1 kv.2 3600 s) st

/-- Is `c` a lowercase hexadecimal digit? -/
def isHexChar (c : Char) : Bool := "0123456789abcdef".data.contains c

/-- Is `needle` a contiguous substring of `hay`? -/
def isSubstr (needle hay : List Char) : Bool :=
  match hay with
  | [] => needle.isEmpty
  | c :: t => needle.isPrefixOf (c :: t) || isSubstr needle t

/-- Distinct keys for the 1001-insert scenario. -/
def wKey (n : Nat) : String := String.mk (List.replicate n (Char.ofNat 97))

/-- 1001 distinct cache entries, in insertion order. -/
def wPS : List (String × String) := (List.range 1001).map (fun n => (wKey n, "tok"))

/-- First-match lookup in a `JObj` (mirrors `dictGet` on the spine type). -/
def oGet (k : String) : JObj → Option JVal
  | .nil => none
  | .cons k2 v t => if k = k2 then some v else oGet k t

/-- The keys of a `JObj`, in order. -/
def keysO : JObj → List String
  | .nil => []
  | .cons k _ t => k :: keysO t

/-!
Theorems.  Each `claimN…` theorem settles the correspondingly numbered claim;
the lemmas before them are shared infrastructure.
-/

theorem dictGet_insert_self {α : Type} (k : String) (v : α) (d : List (String × α)) :
    dictGet k (dictInsert k v d) = some v := by
  induction d with
  | nil => simp [dictInsert, dictGet]
  | cons h t ih =>
    obtain ⟨k2, v2⟩ := h
    by_cases hk : k = k2 <;> simp [dictInsert, dictGet, hk, ih]

theorem dictGet_insert_ne {α : Type} (q k : String) (v : α) (d : List (String × α))
    (h : q ≠ k) : dictGet q (dictInsert k v d) = dictGet q d := by
  induction d with
  | nil => simp [dictInsert, dictGet, h]
  | cons hd t ih =>
    obtain ⟨k2, v2⟩ := hd
    by_cases hk : k = k2
    · subst hk; simp [dictInsert, dictGet, h]
    · by_cases hq : q = k2 <;> simp [dictInsert, dictGet, hk, hq, ih]

/-- C3: `should_cache_request` is true exactly when `add_exp` is false and the
payload contains neither an `iat` nor an `exp` key; it is false as soon as
`add_exp` is set or either key is present. -/
theorem claim3_should_cache_iff (p : Payload) (add_exp : Bool) :
    should_cache_request p add_exp = true ↔
      add_exp = false ∧ dictGet "iat" p = none ∧ dictGet "exp" p = none := by
  cases h1 : dictGet "iat" p <;> cases h2 : dictGet "exp" p <;> cases add_exp <;>
    simp [should_cache_request, hasKey, h1, h2]

/-- C5 counterexample: with the Redis backend selected and its operations
failing, a `set_cache` is not a no-op (it writes the in-memory dict) and the
subsequent failing `get_from_cache` is not a miss (it reads that dict back). -/
theorem claim5_redis_failure_cex :
    get_from_cache "k" (set_cache "k" "tok" 3600 ⟨[], some ⟨[], false⟩⟩) = some "tok" ∧
    set_cache "k" "tok" 3600 ⟨[], some ⟨[], false⟩⟩ ≠ (⟨[], some ⟨[], false⟩⟩ : CacheState) := by
  decide

/-- C5 amended: per-operation Redis failures are fully absorbed and never
propagate — but they degrade to the in-memory store, not to a miss/no-op:
a failing read consults the in-memory dict, a failing write inserts into it,
and the signing request still succeeds. -/
theorem claim5_redis_failure_amended (st : CacheState) (r : RedisState) (k t : String)
    (ttl : Nat) (signer : Signer) (now : Nat) (key : String) (p : Payload) (opts : Options)
    (tok : String) (hr : st.redis = some r) (hok : r.ok = false)
    (hsig : ∀ pl alg, signer pl key alg = .ok tok) :
    get_from_cache k st = dictGet k st.mem ∧
    set_cache k t ttl st = { st with mem := set_cache_mem k t st.mem } ∧
    ∃ v, (_generate_jwt_logic signer now key p opts st).1 = .ok v := by
  refine ⟨by simp [get_from_cache, hr, hok], by simp [set_cache, hr, hok], ?_⟩
  unfold _generate_jwt_logic
  simp only [hsig]
  split
  · exact ⟨_, rfl⟩
  · split
    · exact ⟨_, rfl⟩
    · exact ⟨_, rfl⟩

/-- C5 amended, witness instance. -/
theorem claim5_redis_failure_amended_witness :
    ((⟨[("k0", "t0")], some ⟨[], false⟩⟩ : CacheState).redis = some ⟨[], false⟩ ∧
      (⟨[], false⟩ : RedisState).ok = false ∧
      (∀ pl alg, (fun (_ : Payload) (_ _ : String) => (Except.ok "tok" : Except String String))
          pl "sec" alg = .ok "tok")) ∧
    (get_from_cache "k0" (⟨[("k0", "t0")], some ⟨[], false⟩⟩ : CacheState) =
        dictGet "k0" [("k0", "t0")] ∧
      set_cache "k0" "t1" 60 (⟨[("k0", "t0")], some ⟨[], false⟩⟩ : CacheState) =
        { mem := set_cache_mem "k0" "t1" [("k0", "t0")], redis := some ⟨[], false⟩ } ∧
      ∃ v, (_generate_jwt_logic (fun _ _ _ => (Except.ok "tok" : Except String String)) 7 "sec"
          [] {} ⟨[("k0", "t0")], some ⟨[], false⟩⟩).1 = .ok v) :=
  ⟨⟨rfl, rfl, fun _ _ => rfl⟩,
    claim5_redis_failure_amended ⟨[("k0", "t0")], some ⟨[], false⟩⟩ ⟨[], false⟩ "k0" "t1" 60
      (fun _ _ _ => (Except.ok "tok" : Except String String)) 7 "sec" [] {} "tok" rfl rfl
      (fun _ _ => rfl)⟩

/-- C9 counterexample: the empty string is not valid JSON (the parser is never
even consulted for it), yet the GET route treats it as an empty payload and
succeeds instead of aborting with HTTP 400. -/
theorem claim9_get_invalid_json_cex :
    (generate_jwt_get (fun _ => none) (fun _ _ _ => .ok "tok") 0 "k" "" "HS256" true
      ⟨[], none⟩).1 = .ok { token := "tok", cached := false } := by decide

/-- C9 amended: for every nonempty `body` string the parser rejects, the GET
route answers HTTP 400 with the state unchanged and no cache read, cache
write, or signing performed; an empty `body` is instead treated as `{}`. -/
theorem claim9_get_invalid_json_amended (parseJson : String → Option Payload)
    (signer : Signer) (now : Nat) (key body algorithm : String) (add_exp : Bool)
    (st : CacheState) (hne : body ≠ "") (hbad : parseJson body = none) :
    generate_jwt_get parseJson signer now key body algorithm add_exp st =
      (.error { status_code := 400, detail := "Invalid JSON in 'body' parameter" }, st, []) := by
  simp [generate_jwt_get, hne, hbad]

/-- C9 amended, witness instance. -/
theorem claim9_get_invalid_json_amended_witness :
    (("\x7binvalid" ≠ "" ∧
        (fun (_ : String) => (none : Option Payload)) "\x7binvalid" = none)) ∧
    generate_jwt_get (fun _ => none) (fun _ _ _ => Except.ok "t") 0 "k" "\x7binvalid" "HS256"
        true ⟨[], none⟩ =
      (.error { status_code := 400, detail := "Invalid JSON in 'body' parameter" },
        ⟨[], none⟩, []) :=
  ⟨⟨by decide, rfl⟩,
    claim9_get_invalid_json_amended (fun _ => none) (fun _ _ _ => Except.ok "t") 0 "k"
      "\x7binvalid" "HS256" true ⟨[], none⟩ (by decide) rfl⟩

theorem dictGet_eq_none_iff {α : Type} (k : String) (d : List (String × α)) :
    dictGet k d = none ↔ k ∉ d.map Prod.fst := by
  induction d with
  | nil => simp [dictGet]
  | cons h t ih =>
    obtain ⟨k2, v2⟩ := h
    by_cases hk : k = k2 <;> simp [dictGet, hk, ih]

theorem length_dictInsert_le {α : Type} (k : String) (v : α) (d : List (String × α)) :
    (dictInsert k v d).length ≤ d.length + 1 := by
  induction d with
  | nil => simp [dictInsert]
  | cons h t ih =>
    obtain ⟨k2, v2⟩ := h
    by_cases hk : k = k2 <;> simp [dictInsert, hk] <;> omega

theorem dictInsert_fresh {α : Type} (k : String) (v : α) (d : List (String × α))
    (h : k ∉ d.map Prod.fst) : dictInsert k v d = d ++ [(k, v)] := by
  induction d with
  | nil => simp [dictInsert]
  | cons hd t ih =>
    obtain ⟨k2, v2⟩ := hd
    simp only [List.map_cons, List.mem_cons] at h
    push_neg at h
    simp [dictInsert, h.1, ih h.2]

theorem set_cache_mem_length (k t : String) (m : List (String × String))
    (h : m.length ≤ 1000) : (set_cache_mem k t m).length ≤ 1000 := by
  have hins := length_dictInsert_le k t m
  unfold set_cache_mem
  by_cases hc : 1000 < (dictInsert k t m).length
  · simp only [hc, if_true, List.length_drop]
    omega
  · simp only [hc, if_false]
    omega

theorem set_cache_capacity (k t : String) (ttl : Nat) (st : CacheState)
    (h : st.mem.length ≤ 1000) : (set_cache k t ttl st).mem.length ≤ 1000 := by
  unfold set_cache
  cases hr : st.redis with
  | none => simpa using set_cache_mem_length k t st.mem h
  | some r =>
    by_cases hok : r.ok = true
    · simp [hok, h]
    · simp only [Bool.not_eq_true] at hok
      simpa [hok] using set_cache_mem_length k t st.mem h

theorem insertAll_no_evict (ps : List (String × String)) (st : CacheState)
    (hred : st.redis = none)
    (hnd : (st.mem.map Prod.fst ++ ps.map Prod.fst).Nodup)
    (hlen : st.mem.length + ps.length ≤ 1000) :
    insertAllState ps st = { st with mem := st.mem ++ ps } := by
  induction ps generalizing st with
  | nil => simp [insertAllState]
  | cons hd tl ih =>
    obtain ⟨k, t⟩ := hd
    have hfresh : k ∉ st.mem.map Prod.fst := by
      have := (List.nodup_append.mp hnd).2.2
      exact fun hm => this hm (by simp)
    have hlen2 : ¬ 1000 < (st.mem ++ [(k, t)]).length := by
      have h1 : (st.mem ++ [(k, t)]).length = st.mem.length + 1 := by simp
      simp only [List.length_cons] at hlen
      omega
    have hstep : set_cache k t 3600 st = { st with mem := st.mem ++ [(k, t)] } := by
      rw [set_cache, hred]
      rw [set_cache_mem, dictInsert_fresh k t st.mem hfresh]
      simp only [hlen2, if_false]
    have htail :
        insertAllState tl { st with mem := st.mem ++ [(k, t)] } =
          { st with mem := (st.mem ++ [(k, t)]) ++ tl } := by
      apply ih
      · exact hred
      · simpa [List.append_assoc] using hnd
      · simp only [List.length_append, List.length_singleton]
        simp only [List.length_cons] at hlen
        omega
    calc insertAllState ((k, t) :: tl) st
        = insertAllState tl (set_cache k t 3600 st) := rfl
      _ = insertAllState tl { st with mem := st.mem ++ [(k, t)] } := by rw [hstep]
      _ = { st with mem := (st.mem ++ [(k, t)]) ++ tl } := htail
      _ = { st with mem := st.mem ++ ((k, t) :: tl) } := by simp

/-- C4: every `set_cache` leaves the in-process store at or below 1000
entries, and an insertion that pushes it past 1000 evicts the 100 oldest
entries as one batch: 1001 distinct inserts into an empty store leave
exactly the last 901 entries, the oldest 100 having been dropped. -/
theorem claim4_capacity_batch_eviction (ps : List (String × String))
    (hnd : (ps.map Prod.fst).Nodup) (hlen : ps.length = 1001) :
    (∀ (k t : String) (ttl : Nat) (st : CacheState),
        st.mem.length ≤ 1000 → (set_cache k t ttl st).mem.length ≤ 1000) ∧
    insertAllState ps ⟨[], none⟩ = ⟨ps.drop 100, none⟩ ∧
    (ps.drop 100).length = 901 := by
  refine ⟨set_cache_capacity, ?_, by simp [hlen]⟩
  have htl : (ps.take 1000).length = 1000 := by
    rw [List.length_take, hlen]
    omega
  obtain ⟨x, hx⟩ : ∃ x, ps.drop 1000 = [x] := by
    have : (ps.drop 1000).length = 1 := by simp [hlen]
    exact List.length_eq_one.mp this
  have hsplit : ps.take 1000 ++ [x] = ps := by rw [← hx]; exact List.take_append_drop 1000 ps
  have hndt : ((ps.take 1000).map Prod.fst ++ [x].map Prod.fst).Nodup := by
    rw [← List.map_append, hsplit]; exact hnd
  have htake : insertAllState (ps.take 1000) ⟨[], none⟩ = ⟨ps.take 1000, none⟩ := by
    have := insertAll_no_evict (ps.take 1000) ⟨[], none⟩ rfl
      (by simpa using (List.nodup_append.mp hndt).1)
      (by simp [htl])
    simpa using this
  have hfold : insertAllState ps ⟨[], none⟩ =
      insertAllState [x] (insertAllState (ps.take 1000) ⟨[], none⟩) := by
    conv_lhs => rw [← hsplit]
    simp only [insertAllState, List.foldl_append, List.foldl_cons, List.foldl_nil]
  have hfresh : x.1 ∉ (ps.take 1000).map Prod.fst := by
    have hd := (List.nodup_append.mp hndt).2.2
    exact fun hm => hd hm (by simp)
  have hlen2 : 1000 < (ps.take 1000 ++ [(x.1, x.2)]).length := by
    simp [htl]
  have hlast : insertAllState [x] (⟨ps.take 1000, none⟩ : CacheState) =
      ⟨(ps.take 1000 ++ [(x.1, x.2)]).drop 100, none⟩ := by
    simp only [insertAllState, List.foldl_cons, List.foldl_nil, set_cache, set_cache_mem]
    rw [dictInsert_fresh x.1 x.2 (ps.take 1000) hfresh]
    simp only [hlen2, if_true]
  rw [hfold, htake, hlast]
  have : ps.take 1000 ++ [(x.1, x.2)] = ps := by
    simpa using hsplit
  rw [this]

theorem wKey_inj : Function.Injective wKey := by
  intro a b hab
  have hdata := congrArg String.data hab
  simp only [wKey] at hdata
  simpa using congrArg List.length hdata

theorem wPS_keys_nodup : (wPS.map Prod.fst).Nodup := by
  have hmap : wPS.map Prod.fst = (List.range 1001).map wKey := by
    simp [wPS, List.map_map, Function.comp]
  rw [hmap]
  exact (List.nodup_range 1001).map wKey_inj

/-- C4, witness instance: the hypotheses hold for 1001 concrete distinct keys
and the conclusion follows by the theorem. -/
theorem claim4_capacity_batch_eviction_witness :
    ((wPS.map Prod.fst).Nodup ∧ wPS.length = 1001) ∧
    ((∀ (k t : String) (ttl : Nat) (st : CacheState),
        st.mem.length ≤ 1000 → (set_cache k t ttl st).mem.length ≤ 1000) ∧
      insertAllState wPS ⟨[], none⟩ = ⟨wPS.drop 100, none⟩ ∧
      (wPS.drop 100).length = 901) :=
  ⟨⟨wPS_keys_nodup, by simp [wPS]⟩,
    claim4_capacity_batch_eviction wPS wPS_keys_nodup (by simp [wPS])⟩

theorem should_cache_iff (p : Payload) (add_exp : Bool) :
    should_cache_request p add_exp = true ↔
      add_exp = false ∧ dictGet "iat" p = none ∧ dictGet "exp" p = none := by
  cases h1 : dictGet "iat" p <;> cases h2 : dictGet "exp" p <;> cases add_exp <;>
    simp [should_cache_request, hasKey, h1, h2]

theorem injectStamps_get_other (now : Nat) (ae : Bool) (p : Payload) (k : String)
    (h1 : k ≠ "iat") (h2 : k ≠ "exp") :
    dictGet k (injectStamps now ae p) = dictGet k p := by
  simp only [injectStamps]
  by_cases hA : (ae && !hasKey "exp" p) = true
  · rw [if_pos hA]
    by_cases hB : (!hasKey "iat" (dictInsert "exp" (JVal.time (now + 3600)) p)) = true
    · rw [if_pos hB, dictGet_insert_ne _ _ _ _ h1, dictGet_insert_ne _ _ _ _ h2]
    · rw [if_neg hB, dictGet_insert_ne _ _ _ _ h2]
  · rw [if_neg hA]
    by_cases hB : (!hasKey "iat" p) = true
    · rw [if_pos hB, dictGet_insert_ne _ _ _ _ h1]
    · rw [if_neg hB]

theorem injectStamps_get_iat (now : Nat) (ae : Bool) (p : Payload) :
    dictGet "iat" (injectStamps now ae p) =
      if dictGet "iat" p = none then some (JVal.time now) else dictGet "iat" p := by
  have hne : ("iat" : String) ≠ "exp" := by decide
  simp only [injectStamps]
  cases h : dictGet "iat" p with
  | some v =>
    by_cases hA : (ae && !hasKey "exp" p) = true
    · rw [if_pos hA]
      simp [hasKey, dictGet_insert_ne _ _ _ _ hne, h]
    · rw [if_neg hA]
      simp [hasKey, h]
  | none =>
    by_cases hA : (ae && !hasKey "exp" p) = true
    · rw [if_pos hA]
      simp [hasKey, dictGet_insert_ne _ _ _ _ hne, h, dictGet_insert_self]
    · rw [if_neg hA]
      simp [hasKey, h, dictGet_insert_self]

theorem injectStamps_get_exp (now : Nat) (ae : Bool) (p : Payload) :
    dictGet "exp" (injectStamps now ae p) =
      if ae = true ∧ dictGet "exp" p = none then some (JVal.time (now + 3600))
      else dictGet "exp" p := by
  have hne : ("exp" : String) ≠ "iat" := by decide
  simp only [injectStamps]
  cases h : dictGet "exp" p with
  | some v =>
    have hA : (ae && !hasKey "exp" p) = false := by simp [hasKey, h]
    rw [hA]
    simp only [Bool.false_eq_true, if_false]
    by_cases hB : (!hasKey "iat" p) = true
    · rw [if_pos hB, dictGet_insert_ne _ _ _ _ hne]
      simp [h]
    · rw [if_neg hB]
      simp [h]
  | none =>
    cases ae with
    | false =>
      simp only [Bool.false_and, Bool.false_eq_true, if_false, false_and]
      by_cases hB : (!hasKey "iat" p) = true
      · rw [if_pos hB, dictGet_insert_ne _ _ _ _ hne]
        simp [h]
      · rw [if_neg hB]
        simp [h]
    | true =>
      have hA : (true && !hasKey "exp" p) = true := by simp [hasKey, h]
      rw [hA]
      simp only [if_true]
      by_cases hB :
          (!hasKey "iat" (dictInsert "exp" (JVal.time (now + 3600)) p)) = true
      · rw [if_pos hB, dictGet_insert_ne _ _ _ _ hne, dictGet_insert_self]
        simp [h]
      · rw [if_neg hB, dictGet_insert_self]
        simp [h]

theorem injectStamps_no_ae (now : Nat) (p : Payload) (hiat : dictGet "iat" p = none) :
    injectStamps now false p = dictInsert "iat" (JVal.time now) p := by
  simp [injectStamps, hasKey, hiat]

/-- C1: starting from an empty cache, with a timestamp-free payload and
`add_exp` false, the first call signs, returns `cached := false` and stores
the token under the derived key; the immediately repeated identical call
returns the byte-identical token with `cached := true`, leaves the cache
unchanged, performs only a cache read (no signing, no timestamp injection —
its result does not even depend on the signer or clock supplied then). -/
theorem claim1_cache_round_trip (signer signer2 : Signer) (now now2 : Nat) (key : String)
    (p : Payload) (opts : Options) (t : String)
    (hiat : dictGet "iat" p = none) (hexp : dictGet "exp" p = none)
    (hae : opts.add_exp.getD false = false)
    (hsig : signer (dictInsert "iat" (JVal.time now) p) key (opts.algorithm.getD "HS256") =
      .ok t)
    (ht : t ≠ "") :
    _generate_jwt_logic signer now key p opts ⟨[], none⟩ =
      (.ok { token := t, cached := false },
       ⟨[(generate_cache_key key p (opts.algorithm.getD "HS256"), t)], none⟩,
       [.cacheRead (generate_cache_key key p (opts.algorithm.getD "HS256")),
        .signCall (dictInsert "iat" (JVal.time now) p) (opts.algorithm.getD "HS256"),
        .cacheWrite (generate_cache_key key p (opts.algorithm.getD "HS256"))]) ∧
    _generate_jwt_logic signer2 now2 key p opts
        ⟨[(generate_cache_key key p (opts.algorithm.getD "HS256"), t)], none⟩ =
      (.ok { token := t, cached := true },
       ⟨[(generate_cache_key key p (opts.algorithm.getD "HS256"), t)], none⟩,
       [.cacheRead (generate_cache_key key p (opts.algorithm.getD "HS256"))]) := by
  have hcc : should_cache_request p (opts.add_exp.getD false) = true :=
    (should_cache_iff p _).mpr ⟨hae, hiat, hexp⟩
  have htr : truthyOpt (some t) = true := by
    simp [truthyOpt, ht]
  constructor
  · unfold _generate_jwt_logic
    simp only [if_pos hcc]
    simp only [get_from_cache, dictGet, truthyOpt, Bool.false_eq_true, if_false]
    rw [hae]
    simp only [injectStamps_no_ae now p hiat, hsig]
    simp only [set_cache, set_cache_mem, dictInsert, List.length_cons, List.length_nil]
    norm_num
  · unfold _generate_jwt_logic
    simp only [if_pos hcc]
    have hget : get_from_cache (generate_cache_key key p (opts.algorithm.getD "HS256"))
        (⟨[(generate_cache_key key p (opts.algorithm.getD "HS256"), t)], none⟩ : CacheState) =
        some t := by
      simp [get_from_cache, dictGet]
    simp only [hget, if_pos htr]

/-- C1, witness instance: concrete request discharging every hypothesis. -/
theorem claim1_cache_round_trip_witness :
    (dictGet "iat" [("user", JVal.str "alice")] = none ∧
      dictGet "exp" [("user", JVal.str "alice")] = none ∧
      ({} : Options).add_exp.getD false = false ∧
      (fun (_ : Payload) (_ _ : String) => (Except.ok "eyJ.x.y" : Except String String))
          (dictInsert "iat" (JVal.time 5) [("user", JVal.str "alice")]) "s3cret"
          (({} : Options).algorithm.getD "HS256") = .ok "eyJ.x.y" ∧
      "eyJ.x.y" ≠ "") ∧
    (_generate_jwt_logic (fun _ _ _ => (Except.ok "eyJ.x.y" : Except String String)) 5 "s3cret"
        [("user", JVal.str "alice")] {} ⟨[], none⟩ =
      (.ok { token := "eyJ.x.y", cached := false },
       ⟨[(generate_cache_key "s3cret" [("user", JVal.str "alice")]
            (({} : Options).algorithm.getD "HS256"), "eyJ.x.y")], none⟩,
       [.cacheRead (generate_cache_key "s3cret" [("user", JVal.str "alice")]
          (({} : Options).algorithm.getD "HS256")),
        .signCall (dictInsert "iat" (JVal.time 5) [("user", JVal.str "alice")])
          (({} : Options).algorithm.getD "HS256"),
        .cacheWrite (generate_cache_key "s3cret" [("user", JVal.str "alice")]
          (({} : Options).algorithm.getD "HS256"))]) ∧
      _generate_jwt_logic (fun _ _ _ => (Except.error "down" : Except String String)) 9 "s3cret"
        [("user", JVal.str "alice")] {}
        ⟨[(generate_cache_key "s3cret" [("user", JVal.str "alice")]
            (({} : Options).algorithm.getD "HS256"), "eyJ.x.y")], none⟩ =
      (.ok { token := "eyJ.x.y", cached := true },
       ⟨[(generate_cache_key "s3cret" [("user", JVal.str "alice")]
            (({} : Options).algorithm.getD "HS256"), "eyJ.x.y")], none⟩,
       [.cacheRead (generate_cache_key "s3cret" [("user", JVal.str "alice")]
          (({} : Options).algorithm.getD "HS256"))])) :=
  ⟨⟨rfl, rfl, rfl, rfl, by decide⟩,
    claim1_cache_round_trip (fun _ _ _ => (Except.ok "eyJ.x.y" : Except String String))
      (fun _ _ _ => (Except.error "down" : Except String String)) 5 9 "s3cret"
      [("user", JVal.str "alice")] {} "eyJ.x.y" rfl rfl rfl rfl (by decide)⟩

/-- C6: whenever the Token Signer raises, the orchestrator surfaces an
HTTP 500 with a descriptive message, the cache state is unchanged, the
signer was invoked exactly once (no retry) and no cache write occurred. -/
theorem claim6_signing_error (signer : Signer) (now : Nat) (key : String) (p : Payload)
    (opts : Options) (st : CacheState) (msg : String)
    (hfail : ∀ pl, signer pl key (opts.algorithm.getD "HS256") = .error msg)
    (hmiss : should_cache_request p (opts.add_exp.getD false) = true →
      truthyOpt (get_from_cache (generate_cache_key key p (opts.algorithm.getD "HS256")) st)
        = false) :
    (_generate_jwt_logic signer now key p opts st).1 =
        .error { status_code := 500, detail := "Internal server error: " ++ msg } ∧
    (_generate_jwt_logic signer now key p opts st).2.1 = st ∧
    signEvents (_generate_jwt_logic signer now key p opts st).2.2 =
      [.signCall (injectStamps now (opts.add_exp.getD false) p)
        (opts.algorithm.getD "HS256")] ∧
    writeEvents (_generate_jwt_logic signer now key p opts st).2.2 = [] := by
  unfold _generate_jwt_logic
  by_cases hcc : should_cache_request p (opts.add_exp.getD false) = true
  · simp only [if_pos hcc, if_neg (by simp [hmiss hcc] : ¬ truthyOpt
      (get_from_cache (generate_cache_key key p (opts.algorithm.getD "HS256")) st) = true)]
    simp [hfail, signEvents, writeEvents]
  · simp only [if_neg hcc]
    simp [hfail, signEvents, writeEvents]

/-- C6, witness instance. -/
theorem claim6_signing_error_witness :
    ((∀ pl, (fun (_ : Payload) (_ _ : String) => (Except.error "boom" : Except String String))
        pl "k" (({} : Options).algorithm.getD "HS256") = .error "boom") ∧
      (should_cache_request [] (({} : Options).add_exp.getD false) = true →
        truthyOpt (get_from_cache (generate_cache_key "k" []
          (({} : Options).algorithm.getD "HS256")) ⟨[], none⟩) = false)) ∧
    ((_generate_jwt_logic (fun _ _ _ => (Except.error "boom" : Except String String)) 5 "k" []
        {} ⟨[], none⟩).1 =
        .error { status_code := 500, detail := "Internal server error: " ++ "boom" } ∧
      (_generate_jwt_logic (fun _ _ _ => (Except.error "boom" : Except String String)) 5 "k" []
        {} ⟨[], none⟩).2.1 = ⟨[], none⟩ ∧
      signEvents ((_generate_jwt_logic (fun _ _ _ =>
          (Except.error "boom" : Except String String)) 5 "k" [] {} ⟨[], none⟩).2.2) =
        [.signCall (injectStamps 5 (({} : Options).add_exp.getD false) [])
          (({} : Options).algorithm.getD "HS256")] ∧
      writeEvents ((_generate_jwt_logic (fun _ _ _ =>
          (Except.error "boom" : Except String String)) 5 "k" [] {} ⟨[], none⟩).2.2) = []) :=
  ⟨⟨fun _ => rfl, fun _ => rfl⟩,
    claim6_signing_error (fun _ _ _ => (Except.error "boom" : Except String String)) 5 "k" []
      {} ⟨[], none⟩ "boom" (fun _ => rfl) (fun _ => rfl)⟩

/-- C8: on a cache miss or non-cacheable request exactly one payload is
signed, namely the input extended with `exp = now + 1h` iff `add_exp` is set
and `exp` was absent, and with `iat = now` iff `iat` was absent, every other
field passing through unchanged. -/
theorem claim8_timestamp_injection (signer : Signer) (now : Nat) (key : String) (p : Payload)
    (opts : Options) (st : CacheState)
    (hmiss : should_cache_request p (opts.add_exp.getD false) = true →
      truthyOpt (get_from_cache (generate_cache_key key p (opts.algorithm.getD "HS256")) st)
        = false) :
    signEvents (_generate_jwt_logic signer now key p opts st).2.2 =
      [.signCall (injectStamps now (opts.add_exp.getD false) p)
        (opts.algorithm.getD "HS256")] ∧
    (∀ k, k ≠ "iat" → k ≠ "exp" →
      dictGet k (injectStamps now (opts.add_exp.getD false) p) = dictGet k p) ∧
    dictGet "exp" (injectStamps now (opts.add_exp.getD false) p) =
      (if opts.add_exp.getD false = true ∧ dictGet "exp" p = none
        then some (JVal.time (now + 3600)) else dictGet "exp" p) ∧
    dictGet "iat" (injectStamps now (opts.add_exp.getD false) p) =
      (if dictGet "iat" p = none then some (JVal.time now) else dictGet "iat" p) := by
  refine ⟨?_, fun k h1 h2 => injectStamps_get_other now _ p k h1 h2,
    injectStamps_get_exp now _ p, injectStamps_get_iat now _ p⟩
  unfold _generate_jwt_logic
  by_cases hcc : should_cache_request p (opts.add_exp.getD false) = true
  · simp only [if_pos hcc, if_neg (by simp [hmiss hcc] : ¬ truthyOpt
      (get_from_cache (generate_cache_key key p (opts.algorithm.getD "HS256")) st) = true)]
    cases hs : signer (injectStamps now (opts.add_exp.getD false) p) key
        (opts.algorithm.getD "HS256") with
    | error e => simp [hs, signEvents]
    | ok tok => simp [hs, signEvents, if_pos hcc]
  · simp only [if_neg hcc]
    cases hs : signer (injectStamps now (opts.add_exp.getD false) p) key
        (opts.algorithm.getD "HS256") with
    | error e => simp [hs, signEvents]
    | ok tok => simp [hs, signEvents, if_neg hcc]

/-- C8, witness instance. -/
theorem claim8_timestamp_injection_witness :
    (should_cache_request [("exp", JVal.num 99)]
        (({ add_exp := some true } : Options).add_exp.getD false) = true →
      truthyOpt (get_from_cache (generate_cache_key "k" [("exp", JVal.num 99)]
        (({ add_exp := some true } : Options).algorithm.getD "HS256")) ⟨[], none⟩) = false) ∧
    (signEvents ((_generate_jwt_logic (fun _ _ _ => (Except.ok "tk" : Except String String)) 4
        "k" [("exp", JVal.num 99)] { add_exp := some true } ⟨[], none⟩).2.2) =
      [.signCall (injectStamps 4 (({ add_exp := some true } : Options).add_exp.getD false)
          [("exp", JVal.num 99)])
        (({ add_exp := some true } : Options).algorithm.getD "HS256")] ∧
      (∀ k, k ≠ "iat" → k ≠ "exp" →
        dictGet k (injectStamps 4 (({ add_exp := some true } : Options).add_exp.getD false)
          [("exp", JVal.num 99)]) = dictGet k [("exp", JVal.num 99)]) ∧
      dictGet "exp" (injectStamps 4 (({ add_exp := some true } : Options).add_exp.getD false)
          [("exp", JVal.num 99)]) =
        (if ({ add_exp := some true } : Options).add_exp.getD false = true ∧
            dictGet "exp" [("exp", JVal.num 99)] = none
          then some (JVal.time (4 + 3600)) else dictGet "exp" [("exp", JVal.num 99)]) ∧
      dictGet "iat" (injectStamps 4 (({ add_exp := some true } : Options).add_exp.getD false)
          [("exp", JVal.num 99)]) =
        (if dictGet "iat" [("exp", JVal.num 99)] = none then some (JVal.time 4)
          else dictGet "iat" [("exp", JVal.num 99)])) :=
  ⟨fun h => by simp [should_cache_request, hasKey, dictGet] at h,
    claim8_timestamp_injection (fun _ _ _ => (Except.ok "tk" : Except String String)) 4 "k"
      [("exp", JVal.num 99)] { add_exp := some true } ⟨[], none⟩
      (fun h => by simp [should_cache_request, hasKey, dictGet] at h)⟩

theorem signCall_payload_mem (signer : Signer) (now : Nat) (key : String) (p : Payload)
    (opts : Options) (st : CacheState) (pl : Payload) (a : String)
    (hmem : Event.signCall pl a ∈ (_generate_jwt_logic signer now key p opts st).2.2) :
    pl = injectStamps now (opts.add_exp.getD false) p := by
  simp only [_generate_jwt_logic] at hmem
  split at hmem
  · by_cases hcc : should_cache_request p (opts.add_exp.getD false) = true <;>
      simp [hcc] at hmem
  · split at hmem
    · by_cases hcc : should_cache_request p (opts.add_exp.getD false) = true <;>
        simp [hcc] at hmem <;> exact hmem.1
    · by_cases hcc : should_cache_request p (opts.add_exp.getD false) = true
      · simp [hcc] at hmem
        exact hmem.1
      · simp [hcc] at hmem
        exact hmem.1

theorem logic_not_cached_of_add_exp_true (signer : Signer) (now : Nat) (key : String)
    (p : Payload) (alg : String) (st : CacheState) (r : JWTResponse)
    (hr : (_generate_jwt_logic signer now key p
      { algorithm := some alg, add_exp := some true } st).1 = .ok r) :
    r.cached = false := by
  have hcc : should_cache_request p
      (({ algorithm := some alg, add_exp := some true } : Options).add_exp.getD false) =
      false := by
    simp [should_cache_request]
  simp only [_generate_jwt_logic] at hr
  rw [hcc] at hr
  simp only [Bool.false_eq_true, if_false] at hr
  split at hr
  · exact absurd hr (by simp)
  · rw [← Except.ok.inj hr]

/-- C10: a POST whose options omit `add_exp` defaults it to false, so a bare
POST with a timestamp-free payload is cacheable and whatever payload is
signed for it carries no `exp` claim, while the GET route (whose `add_exp`
query parameter defaults to true) never serves its default request from the
cache. -/
theorem claim10_default_add_exp (signer : Signer) (now : Nat) (req : JWTRequest)
    (st : CacheState) (parseJson : String → Option Payload) (key2 : String) (st2 : CacheState)
    (hopt : (req.options.getD {}).add_exp = none)
    (hiat : dictGet "iat" req.body = none) (hexp : dictGet "exp" req.body = none) :
    should_cache_request req.body ((req.options.getD {}).add_exp.getD false) = true ∧
    (∀ pl a, Event.signCall pl a ∈ (generate_jwt_post signer now req st).2.2 →
      dictGet "exp" pl = none) ∧
    (∀ r, (generate_jwt_get parseJson signer now key2 "\x7b\x7d" "HS256" true st2).1 = .ok r →
      r.cached = false) := by
  have hae : (req.options.getD {}).add_exp.getD false = false := by rw [hopt]; rfl
  refine ⟨by rw [hae]; exact (should_cache_iff _ _).mpr ⟨rfl, hiat, hexp⟩, ?_, ?_⟩
  · intro pl a hmem
    have hpl := signCall_payload_mem signer now req.key req.body (req.options.getD {}) st pl a
      hmem
    rw [hae] at hpl
    rw [hpl, injectStamps_get_exp]
    simp [hexp]
  · intro r hr
    simp only [generate_jwt_get,
      show (("\x7b\x7d" == "") = false) from rfl, Bool.false_eq_true, if_false] at hr
    cases hp : parseJson "\x7b\x7d" with
    | none =>
      rw [hp] at hr
      exact absurd hr (by simp)
    | some q =>
      rw [hp] at hr
      exact logic_not_cached_of_add_exp_true signer now key2 q "HS256" st2 r hr

/-- C10, witness instance. -/
theorem claim10_default_add_exp_witness :
    ((({ key := "k", body := [("user", JVal.str "alice")], options := none } :
        JWTRequest).options.getD {}).add_exp = none ∧
      dictGet "iat" [("user", JVal.str "alice")] = none ∧
      dictGet "exp" [("user", JVal.str "alice")] = none) ∧
    (should_cache_request [("user", JVal.str "alice")]
        ((({ key := "k", body := [("user", JVal.str "alice")], options := none } :
          JWTRequest).options.getD {}).add_exp.getD false) = true ∧
      (∀ pl a, Event.signCall pl a ∈
          (generate_jwt_post (fun _ _ _ => (Except.ok "tk" : Except String String)) 3
            { key := "k", body := [("user", JVal.str "alice")], options := none }
            ⟨[], none⟩).2.2 →
        dictGet "exp" pl = none) ∧
      (∀ r, (generate_jwt_get (fun _ => some []) (fun _ _ _ =>
            (Except.ok "tk" : Except String String)) 3 "k2" "\x7b\x7d" "HS256" true
            ⟨[], none⟩).1 = .ok r →
        r.cached = false)) :=
  ⟨⟨rfl, rfl, rfl⟩,
    claim10_default_add_exp (fun _ _ _ => (Except.ok "tk" : Except String String)) 3
      { key := "k", body := [("user", JVal.str "alice")], options := none } ⟨[], none⟩
      (fun _ => some []) "k2" ⟨[], none⟩ rfl rfl rfl⟩

theorem mem_of_isPrefixOf (l1 l2 : List Char) (h : l1.isPrefixOf l2 = true) :
    ∀ c ∈ l1, c ∈ l2 := by
  induction l1 generalizing l2 with
  | nil => simp
  | cons a as ih =>
    cases l2 with
    | nil => simp [List.isPrefixOf] at h
    | cons b bs =>
      simp only [List.isPrefixOf, Bool.and_eq_true, beq_iff_eq] at h
      intro c hc
      rcases List.mem_cons.mp hc with hc | hc
      · simp [hc, h.1]
      · exact List.mem_cons_of_mem _ (ih bs h.2 c hc)

theorem mem_of_isSubstr (n h : List Char) (hs : isSubstr n h = true) :
    ∀ c ∈ n, c ∈ h := by
  induction h with
  | nil =>
    simp only [isSubstr, List.isEmpty_iff] at hs
    simp [hs]
  | cons b bs ih =>
    simp only [isSubstr, Bool.or_eq_true] at hs
    intro c hc
    rcases hs with hs | hs
    · exact mem_of_isPrefixOf n (b :: bs) hs c hc
    · exact List.mem_cons_of_mem _ (ih hs c hc)

theorem isHexChar_hexChar (n : Nat) (h : n < 16) : isHexChar (hexChar n) = true := by
  revert h
  revert n
  decide

theorem byteHex_hex (b : Nat) (hb : b < 256) :
    ∀ c ∈ byteHex b, isHexChar c = true := by
  intro c hc
  have h1 : b / 16 < 16 := by omega
  have h2 : b % 16 < 16 := Nat.mod_lt _ (by norm_num)
  rcases List.mem_cons.mp hc with hc | hc
  · rw [hc]; exact isHexChar_hexChar _ h1
  · rcases List.mem_cons.mp hc with hc | hc
    · rw [hc]; exact isHexChar_hexChar _ h2
    · simp at hc

theorem leBytes4_lt (x : Nat) : ∀ b ∈ leBytes4 x, b < 256 := by
  intro b hb
  simp only [leBytes4, List.mem_cons, List.not_mem_nil, or_false] at hb
  rcases hb with h | h | h | h <;> subst h <;> exact Nat.mod_lt _ (by norm_num)

theorem md5Bytes_lt (m : List Nat) : ∀ b ∈ md5Bytes m, b < 256 := by
  intro b hb
  simp only [md5Bytes] at hb
  rcases hfold : (blocks64 (padMD5 m).length (padMD5 m)).foldl
      (fun st blk => md5Block st (words4LE blk))
      (1732584193, 4023233417, 2562383102, 271733878) with ⟨a, b2, c, d⟩
  rw [hfold] at hb
  simp only [List.mem_append] at hb
  rcases hb with ((hb | hb) | hb) | hb <;> exact leBytes4_lt _ b hb

theorem md5hex_chars_hex (m : List Nat) : ∀ c ∈ (md5hex m).data, isHexChar c = true := by
  intro c hc
  simp only [md5hex, bytesToHex, List.mem_flatten, List.mem_map] at hc
  rcases hc with ⟨l, ⟨b, hb, rfl⟩, hcl⟩
  exact byteHex_hex b (md5Bytes_lt m b hb) c hcl

set_option maxRecDepth 100000

/-- C7 counterexample: for the one-character secret "0" (empty payload,
algorithm HS256) the derived cache key is the 32-hex-character digest
`317eab12eb011d407c574a073e7ddec0`, which contains the literal secret as a
substring. -/
theorem claim7_secret_in_key_cex :
    generate_cache_key "0" [] "HS256" = "317eab12eb011d407c574a073e7ddec0" ∧
    isSubstr "0".data (generate_cache_key "0" [] "HS256").data = true := by
  constructor
  · decide
  · decide

/-- C7 amended: the cache key is a 32-character lowercase-hex MD5 digest and
never embeds the secret itself (only a truncated SHA-256 of it enters the
derivation), so it can never contain the secret as a substring when the
secret has any character outside the lowercase-hex alphabet; for secrets
made only of lowercase-hex characters, containment can occur by chance. -/
theorem claim7_secret_in_key_amended (secret alg : String) (p : Payload) (c : Char)
    (hc : c ∈ secret.data) (hhex : isHexChar c = false) :
    isSubstr secret.data (generate_cache_key secret p alg).data = false := by
  by_contra hcon
  rw [Bool.not_eq_false] at hcon
  have hmem := mem_of_isSubstr _ _ hcon c hc
  have hkey : ∃ m, generate_cache_key secret p alg = md5hex m := ⟨_, rfl⟩
  rcases hkey with ⟨m, hm⟩
  rw [hm] at hmem
  rw [md5hex_chars_hex m c hmem] at hhex
  exact absurd hhex (by decide)

/-- C7 amended, witness instance. -/
theorem claim7_secret_in_key_amended_witness :
    ((Char.ofNat 33) ∈ "s3cret!".data ∧ isHexChar (Char.ofNat 33) = false) ∧
    isSubstr "s3cret!".data
      (generate_cache_key "s3cret!" [("user", JVal.str "alice")] "HS256").data = false :=
  ⟨⟨by decide, by decide⟩,
    claim7_secret_in_key_amended "s3cret!" "HS256" [("user", JVal.str "alice")]
      (Char.ofNat 33) (by decide) (by decide)⟩

theorem charToNat_inj (c1 c2 : Char) (h : c1.toNat = c2.toNat) : c1 = c2 := by
  rw [← Char.ofNat_toNat c1, h, Char.ofNat_toNat]

theorem charListLE_refl (l : List Char) : charListLE l l = true := by
  induction l with
  | nil => rfl
  | cons c t ih => simp [charListLE, ih]

theorem strLE_refl (s : String) : strLE s s = true := charListLE_refl s.data

theorem charListLE_total (l1 l2 : List Char) :
    charListLE l1 l2 = true ∨ charListLE l2 l1 = true := by
  induction l1 generalizing l2 with
  | nil => left; rfl
  | cons c1 t1 ih =>
    cases l2 with
    | nil => right; rfl
    | cons c2 t2 =>
      rcases Nat.lt_trichotomy c1.toNat c2.toNat with h | h | h
      · left; simp [charListLE, h]
      · rcases ih t2 with ht | ht
        · left; simp [charListLE, h, Nat.lt_irrefl, ht]
        · right; simp [charListLE, h, Nat.lt_irrefl, ht]
      · right; simp [charListLE, h]

theorem strLE_total (s1 s2 : String) : strLE s1 s2 = true ∨ strLE s2 s1 = true :=
  charListLE_total s1.data s2.data

theorem charListLE_antisymm (l1 l2 : List Char)
    (h12 : charListLE l1 l2 = true) (h21 : charListLE l2 l1 = true) : l1 = l2 := by
  induction l1 generalizing l2 with
  | nil =>
    cases l2 with
    | nil => rfl
    | cons c2 t2 => simp [charListLE] at h21
  | cons c1 t1 ih =>
    cases l2 with
    | nil => simp [charListLE] at h12
    | cons c2 t2 =>
      by_cases hlt : c1.toNat < c2.toNat
      · simp [charListLE, hlt, Nat.lt_asymm hlt] at h21
      · by_cases hgt : c2.toNat < c1.toNat
        · simp [charListLE, hlt, hgt] at h12
        · have hc : c1 = c2 := charToNat_inj c1 c2 (Nat.le_antisymm
            (Nat.not_lt.mp hgt) (Nat.not_lt.mp hlt))
          simp only [charListLE, hlt, hgt, if_false] at h12 h21
          rw [hc, ih t2 h12 h21]

theorem strLE_antisymm (s1 s2 : String) (h12 : strLE s1 s2 = true)
    (h21 : strLE s2 s1 = true) : s1 = s2 := by
  cases s1 with
  | mk d1 =>
    cases s2 with
    | mk d2 =>
      rw [charListLE_antisymm d1 d2 h12 h21]

theorem charListLE_trans (l1 l2 l3 : List Char) (h12 : charListLE l1 l2 = true)
    (h23 : charListLE l2 l3 = true) : charListLE l1 l3 = true := by
  induction l1 generalizing l2 l3 with
  | nil => rfl
  | cons c1 t1 ih =>
    cases l2 with
    | nil => simp [charListLE] at h12
    | cons c2 t2 =>
      cases l3 with
      | nil => simp [charListLE] at h23
      | cons c3 t3 =>
        simp only [charListLE] at h12 h23 ⊢
        have le12 : c1.toNat ≤ c2.toNat := by
          by_cases hb : c2.toNat < c1.toNat
          · by_cases ha : c1.toNat < c2.toNat
            · omega
            · simp [ha, hb] at h12
          · omega
        have le23 : c2.toNat ≤ c3.toNat := by
          by_cases hb : c3.toNat < c2.toNat
          · by_cases ha : c2.toNat < c3.toNat
            · omega
            · simp [ha, hb] at h23
          · omega
        by_cases h13 : c1.toNat < c3.toNat
        · simp [h13]
        · have r12 : charListLE t1 t2 = true := by
            simp only [show ¬ c1.toNat < c2.toNat by omega,
              show ¬ c2.toNat < c1.toNat by omega, if_false] at h12
            exact h12
          have r23 : charListLE t2 t3 = true := by
            simp only [show ¬ c2.toNat < c3.toNat by omega,
              show ¬ c3.toNat < c2.toNat by omega, if_false] at h23
            exact h23
          simp only [h13, show ¬ c3.toNat < c1.toNat by omega, if_false]
          exact ih t2 t3 r12 r23

theorem strLE_trans (s1 s2 s3 : String) (h12 : strLE s1 s2 = true)
    (h23 : strLE s2 s3 = true) : strLE s1 s3 = true :=
  charListLE_trans s1.data s2.data s3.data h12 h23

theorem jobj_ind {motive : JObj → Prop} (hnil : motive .nil)
    (hcons : ∀ (k : String) (v : JVal) (t : JObj), motive t → motive (.cons k v t)) :
    ∀ o, motive o
  | .nil => hnil
  | .cons k v t => hcons k v t (jobj_ind hnil hcons t)

theorem oGet_objOfList (k : String) (l : List (String × JVal)) :
    oGet k (objOfList l) = dictGet k l := by
  induction l with
  | nil => rfl
  | cons h t ih =>
    obtain ⟨k2, v⟩ := h
    by_cases hk : k = k2 <;> simp [objOfList, oGet, dictGet, hk, ih]

theorem keysO_objOfList (l : List (String × JVal)) :
    keysO (objOfList l) = l.map Prod.fst := by
  induction l with
  | nil => rfl
  | cons h t ih => obtain ⟨k2, v⟩ := h; simp [objOfList, keysO, ih]

theorem keysO_sortVals (o : JObj) : keysO (sortVals o) = keysO o := by
  induction o using jobj_ind with
  | hnil => rfl
  | hcons k v t ih => simp [sortVals, keysO, ih]

theorem oGet_sortVals (k : String) (o : JObj) :
    oGet k (sortVals o) = (oGet k o).map sortV := by
  induction o using jobj_ind with
  | hnil => rfl
  | hcons k2 v t ih =>
    by_cases hk : k = k2 <;> simp [sortVals, oGet, hk, ih]

theorem oGet_insO_self (k : String) (v : JVal) (o : JObj) :
    oGet k (insO k v o) = some v := by
  induction o using jobj_ind with
  | hnil => simp [insO, oGet]
  | hcons k2 v2 t ih =>
    by_cases hle : strLE k k2 = true
    · simp [insO, hle, oGet]
    · have hne : k ≠ k2 := fun h => hle (h ▸ strLE_refl k)
      simp [insO, hle, oGet, hne, ih]

theorem oGet_insO_ne (q k : String) (v : JVal) (o : JObj) (h : q ≠ k) :
    oGet q (insO k v o) = oGet q o := by
  induction o using jobj_ind with
  | hnil => simp [insO, oGet, h]
  | hcons k2 v2 t ih =>
    by_cases hle : strLE k k2 = true
    · simp [insO, hle, oGet, h]
    · by_cases hq : q = k2 <;> simp [insO, hle, oGet, hq, ih]

theorem oGet_sortPairsO (q : String) (o : JObj) : oGet q (sortPairsO o) = oGet q o := by
  induction o using jobj_ind with
  | hnil => rfl
  | hcons k v t ih =>
    by_cases hq : q = k
    · subst hq
      simp [sortPairsO, oGet_insO_self, oGet]
    · simp [sortPairsO, oGet_insO_ne q k v _ hq, oGet, hq, ih]

theorem keysO_insO_perm (k : String) (v : JVal) (o : JObj) :
    List.Perm (keysO (insO k v o)) (k :: keysO o) := by
  induction o using jobj_ind with
  | hnil => simp [insO, keysO]
  | hcons k2 v2 t ih =>
    by_cases hle : strLE k k2 = true
    · simp [insO, hle, keysO]
    · simp only [insO, hle, Bool.false_eq_true, if_false, keysO]
      exact (ih.cons k2).trans (List.Perm.swap k k2 (keysO t))

theorem keysO_sortPairsO_perm (o : JObj) : List.Perm (keysO (sortPairsO o)) (keysO o) := by
  induction o using jobj_ind with
  | hnil => simp [sortPairsO, keysO]
  | hcons k v t ih =>
    exact (keysO_insO_perm k v (sortPairsO t)).trans (ih.cons k)

theorem pairwise_keys_insO (k : String) (v : JVal) (o : JObj)
    (h : (keysO o).Pairwise (fun a b => strLE a b = true)) :
    (keysO (insO k v o)).Pairwise (fun a b => strLE a b = true) := by
  induction o using jobj_ind with
  | hnil => simp [insO, keysO]
  | hcons k2 v2 t ih =>
    rw [keysO] at h
    rcases List.pairwise_cons.mp h with ⟨hhead, htail⟩
    by_cases hle : strLE k k2 = true
    · simp only [insO, hle, if_true, keysO]
      refine List.pairwise_cons.mpr ⟨?_, h⟩
      intro x hx
      rcases List.mem_cons.mp hx with hx | hx
      · rw [hx]; exact hle
      · exact strLE_trans k k2 x hle (hhead x hx)
    · have hle2 : strLE k2 k = true := by
        rcases strLE_total k k2 with ht | ht
        · exact absurd ht hle
        · exact ht
      simp only [insO, hle, Bool.false_eq_true, if_false, keysO]
      refine List.pairwise_cons.mpr ⟨?_, ih htail⟩
      intro x hx
      rcases List.mem_cons.mp ((keysO_insO_perm k v t).mem_iff.mp hx) with hx | hx
      · rw [hx]; exact hle2
      · exact hhead x hx

theorem pairwise_keys_sortPairsO (o : JObj) :
    (keysO (sortPairsO o)).Pairwise (fun a b => strLE a b = true) := by
  induction o using jobj_ind with
  | hnil => simp [sortPairsO, keysO]
  | hcons k v t ih => exact pairwise_keys_insO k v (sortPairsO t) ih

theorem oGet_eq_none_of_not_mem (k : String) (o : JObj) (h : k ∉ keysO o) :
    oGet k o = none := by
  induction o using jobj_ind with
  | hnil => rfl
  | hcons k2 v t ih =>
    simp only [keysO, List.mem_cons, not_or] at h
    obtain ⟨h1, h2⟩ := h
    simp [oGet, h1, ih h2]

theorem mem_keysO_of_oGet (k : String) (o : JObj) (v : JVal) (h : oGet k o = some v) :
    k ∈ keysO o := by
  induction o using jobj_ind with
  | hnil => simp [oGet] at h
  | hcons k2 v2 t ih =>
    by_cases hk : k = k2
    · simp [keysO, hk]
    · simp only [oGet, hk, if_neg, if_false] at h
      simp only [keysO, List.mem_cons]
      exact Or.inr (ih h)

theorem oGet_ext_sorted (o1 : JObj) : ∀ (o2 : JObj),
    (keysO o1).Pairwise (fun a b => strLE a b = true) →
    (keysO o2).Pairwise (fun a b => strLE a b = true) →
    (keysO o1).Nodup → (keysO o2).Nodup →
    (∀ k, oGet k o1 = oGet k o2) → o1 = o2 := by
  induction o1 using jobj_ind with
  | hnil =>
    intro o2 _ _ _ _ hag
    cases o2 with
    | nil => rfl
    | cons k v t =>
      have := hag k
      simp [oGet] at this
  | hcons k1 v1 t1 ih =>
    intro o2 s1 s2 n1 n2 hag
    cases o2 with
    | nil =>
      have := hag k1
      simp [oGet] at this
    | cons k2 v2 t2 =>
      have s1x : List.Pairwise (fun a b => strLE a b = true) (k1 :: keysO t1) := s1
      have s2x : List.Pairwise (fun a b => strLE a b = true) (k2 :: keysO t2) := s2
      have n1x : (k1 :: keysO t1).Nodup := n1
      have n2x : (k2 :: keysO t2).Nodup := n2
      rcases List.pairwise_cons.mp s1x with ⟨hh1, ht1⟩
      rcases List.pairwise_cons.mp s2x with ⟨hh2, ht2⟩
      rcases List.nodup_cons.mp n1x with ⟨hm1, hd1⟩
      rcases List.nodup_cons.mp n2x with ⟨hm2, hd2⟩
      have hk : k1 = k2 := by
        by_contra hne
        have hx1 : oGet k1 (JObj.cons k2 v2 t2) = some v1 := by
          rw [← hag k1]; simp [oGet]
        simp only [oGet, hne, if_false] at hx1
        have hmm1 : k1 ∈ keysO t2 := mem_keysO_of_oGet _ _ _ hx1
        have hle21 : strLE k2 k1 = true := hh2 k1 hmm1
        have hx2 : oGet k2 (JObj.cons k1 v1 t1) = some v2 := by
          rw [hag k2]; simp [oGet]
        simp only [oGet, Ne.symm hne, if_false] at hx2
        have hmm2 : k2 ∈ keysO t1 := mem_keysO_of_oGet _ _ _ hx2
        have hle12 : strLE k1 k2 = true := hh1 k2 hmm2
        exact hne (strLE_antisymm k1 k2 hle12 hle21)
      subst hk
      have hv : v1 = v2 := by
        have := hag k1
        simpa [oGet] using this
      subst hv
      have hag2 : ∀ k, oGet k t1 = oGet k t2 := by
        intro k
        by_cases hkk : k = k1
        · subst hkk
          rw [oGet_eq_none_of_not_mem k t1 hm1, oGet_eq_none_of_not_mem k t2 hm2]
        · have := hag k
          simpa [oGet, hkk] using this
      rw [ih t2 ht1 ht2 hd1 hd2 hag2]

theorem dictGet_filter_ne (p : Payload) (k : String) (h1 : k ≠ "iat") (h2 : k ≠ "exp") :
    dictGet k (p.filter (fun kv => !(kv.1 == "iat" || kv.1 == "exp"))) = dictGet k p := by
  induction p with
  | nil => rfl
  | cons hd t ih =>
    obtain ⟨k2, v⟩ := hd
    by_cases hp : (!(k2 == "iat" || k2 == "exp")) = true
    · simp only [List.filter_cons, hp, if_true]
      by_cases hk : k = k2
      · subst hk
        simp only [dictGet, eq_self_iff_true, if_true]
      · simp only [dictGet, if_neg hk]
        exact ih
    · simp only [Bool.not_eq_true] at hp
      have hor : k2 = "iat" ∨ k2 = "exp" := by
        have hp2 : (k2 == "iat" || k2 == "exp") = true := by
          cases hb : (k2 == "iat" || k2 == "exp") with
          | true => rfl
          | false => rw [hb] at hp; simp at hp
        simpa [beq_iff_eq] using hp2
      have hne : k ≠ k2 := by
        rcases hor with h | h <;> rw [h] <;> assumption
      simp only [List.filter_cons, hp, Bool.false_eq_true, if_false]
      simp only [dictGet, if_neg hne]
      exact ih

theorem dictGet_filter_stamp (p : Payload) (k : String) (hk : k = "iat" ∨ k = "exp") :
    dictGet k (p.filter (fun kv => !(kv.1 == "iat" || kv.1 == "exp"))) = none := by
  rw [dictGet_eq_none_iff]
  intro hm
  rcases List.mem_map.mp hm with ⟨kv, hkv, hfst⟩
  have hpred := (List.mem_filter.mp hkv).2
  rw [hfst] at hpred
  rcases hk with rfl | rfl <;> simp at hpred

theorem nodup_filter_keys (p : Payload) (h : (p.map Prod.fst).Nodup) :
    ((p.filter (fun kv => !(kv.1 == "iat" || kv.1 == "exp"))).map Prod.fst).Nodup :=
  h.sublist ((p.filter_sublist).map Prod.fst)

/-- C2: the cache key depends only on the logical request — for any two
payload dicts (unique keys) agreeing on every field other than `iat`/`exp`,
in any insertion order and with `iat`/`exp` freely added or removed, the
derived cache key is byte-identical (determinism is immediate since the
derivation is a pure function). -/
theorem claim2_cache_key_canonical (secret alg : String) (p1 p2 : Payload)
    (h1 : (p1.map Prod.fst).Nodup) (h2 : (p2.map Prod.fst).Nodup)
    (hagree : ∀ k, k ≠ "iat" → k ≠ "exp" → dictGet k p1 = dictGet k p2) :
    generate_cache_key secret p1 alg = generate_cache_key secret p2 alg := by
  have hg : ∀ k,
      dictGet k (p1.filter (fun kv => !(kv.1 == "iat" || kv.1 == "exp"))) =
      dictGet k (p2.filter (fun kv => !(kv.1 == "iat" || kv.1 == "exp"))) := by
    intro k
    by_cases hki : k = "iat"
    · rw [dictGet_filter_stamp p1 k (Or.inl hki), dictGet_filter_stamp p2 k (Or.inl hki)]
    · by_cases hke : k = "exp"
      · rw [dictGet_filter_stamp p1 k (Or.inr hke), dictGet_filter_stamp p2 k (Or.inr hke)]
      · rw [dictGet_filter_ne p1 k hki hke, dictGet_filter_ne p2 k hki hke,
          hagree k hki hke]
  have hnd1 : (keysO (sortPairsO (sortVals (objOfList
      (p1.filter (fun kv => !(kv.1 == "iat" || kv.1 == "exp"))))))).Nodup := by
    have hperm := keysO_sortPairsO_perm (sortVals (objOfList
      (p1.filter (fun kv => !(kv.1 == "iat" || kv.1 == "exp")))))
    rw [keysO_sortVals, keysO_objOfList] at hperm
    exact hperm.nodup_iff.mpr (nodup_filter_keys p1 h1)
  have hnd2 : (keysO (sortPairsO (sortVals (objOfList
      (p2.filter (fun kv => !(kv.1 == "iat" || kv.1 == "exp"))))))).Nodup := by
    have hperm := keysO_sortPairsO_perm (sortVals (objOfList
      (p2.filter (fun kv => !(kv.1 == "iat" || kv.1 == "exp")))))
    rw [keysO_sortVals, keysO_objOfList] at hperm
    exact hperm.nodup_iff.mpr (nodup_filter_keys p2 h2)
  have hobj : sortPairsO (sortVals (objOfList
        (p1.filter (fun kv => !(kv.1 == "iat" || kv.1 == "exp"))))) =
      sortPairsO (sortVals (objOfList
        (p2.filter (fun kv => !(kv.1 == "iat" || kv.1 == "exp"))))) := by
    apply oGet_ext_sorted _ _ (pairwise_keys_sortPairsO _) (pairwise_keys_sortPairsO _)
      hnd1 hnd2
    intro k
    rw [oGet_sortPairsO, oGet_sortPairsO, oGet_sortVals, oGet_sortVals,
      oGet_objOfList, oGet_objOfList, hg k]
  simp only [generate_cache_key, sortV, sortVals]
  rw [hobj]

/-- C2, witness instance: two dicts in different insertion order, one with a
stray `iat`, the other with a stray `exp`, agreeing elsewhere. -/
theorem claim2_cache_key_canonical_witness :
    ((([("b", JVal.str "x"), ("a", JVal.num 1), ("iat", JVal.num 5)] : Payload).map
        Prod.fst).Nodup ∧
      (([("a", JVal.num 1), ("exp", JVal.bool true), ("b", JVal.str "x")] : Payload).map
        Prod.fst).Nodup ∧
      (∀ k, k ≠ "iat" → k ≠ "exp" →
        dictGet k ([("b", JVal.str "x"), ("a", JVal.num 1), ("iat", JVal.num 5)] : Payload) =
          dictGet k
            ([("a", JVal.num 1), ("exp", JVal.bool true), ("b", JVal.str "x")] : Payload))) ∧
    generate_cache_key "s3cret"
        [("b", JVal.str "x"), ("a", JVal.num 1), ("iat", JVal.num 5)] "HS256" =
      generate_cache_key "s3cret"
        [("a", JVal.num 1), ("exp", JVal.bool true), ("b", JVal.str "x")] "HS256" := by
  refine ⟨⟨by decide, by decide, ?_⟩,
    claim2_cache_key_canonical _ _ _ _ (by decide) (by decide) ?_⟩
  all_goals
    intro k hki hke
    by_cases hb : k = "b"
    · subst hb; decide
    · by_cases ha : k = "a"
      · subst ha; decide
      · simp [dictGet, hb, ha, hki, hke]

/-- Sanity: the MD5 embedding reproduces the standard empty-string digest. -/
theorem md5_vector_empty : md5hex (strBytes "") = "d41d8cd98f00b204e9800998ecf8427e" := by
  decide

/-- Sanity: the MD5 embedding reproduces the standard digest of "abc". -/
theorem md5_vector_abc : md5hex (strBytes "abc") = "900150983cd24fb0d6963f7d28e17f72" := by
  decide

/-- Sanity: a two-block MD5 input. -/
theorem md5_vector_long :
    md5hex (strBytes "The quick brown fox jumps over the lazy dog. 1234567890 ABCDEF") =
      "9777758dc873bcaf4ebe05c76bb049f5" := by
  decide

/-- Sanity: the SHA-256 embedding reproduces the standard empty-string digest. -/
theorem sha256_vector_empty :
    sha256hex (strBytes "") =
      "e3b0c44298fc1c149afbf4c8996fb92427ae41e4649b934ca495991b7852b855" := by
  decide

/-- Sanity: the SHA-256 embedding reproduces the standard digest of "abc". -/
theorem sha256_vector_abc :
    sha256hex (strBytes "abc") =
      "ba7816bf8f01cfea414140de5dae2223b00361a396177a9cb410ff61f20015ad" := by
  decide

end JWTGen
